import Mathlib

/-!
Verification of the ORTools nurse-scheduling repository.

The Python sources are shallowly embedded:
* CP-SAT boolean variables become `Bool`-valued assignment functions
  `x : Nat → Nat → Nat → Bool` (nurse, day, shift) and
  `r : Nat → Nat → Bool` (nurse, day); auxiliary indicator variables
  created with `NewBoolVar` inside a rule become a separate assignment
  function passed to that rule's satisfaction predicate.
* Each constraint-library rule (`constraints.py`) is embedded as the
  predicate holding of exactly those assignments that satisfy the
  constraints the rule adds: the Python loops become bounded list
  quantifications, `model.Add(sum(...) <= k)` becomes a bound on a
  boolean sum, `AddExactlyOne` a count-one condition, `AddMaxEquality`
  a boolean OR equation and `OnlyEnforceIf` an implication.
* `utils.what_day` and the model construction / solve extraction of
  `scheduler.py` are embedded as executable functions.
-/

/-- The canonical week ordering from `utils.what_day`. -/
def daysOfWeek : List String :=
  ["Monday", "Tuesday", "Wednesday", "Thursday", "Friday", "Saturday", "Sunday"]

/-- Errors surfaced by the embedded code.  `configurationError` stands for the
failure raised on invalid static configuration (in `utils.what_day` this is the
lookup failure of `days_of_week.index`). -/
inductive SchedulingError where
  | configurationError (msg : String)
  deriving DecidableEq

/-- Embedding of `utils.what_day` (src/utils.py lines 5–11): weekday name and
weekend flag for day index `day` given the starting weekday `start_day`.
`days_of_week.index(start_day)` raises when `start_day` is absent, embedded as
the `Except.error` branch. -/
def what_day (day : Nat) (start_day : String) : Except SchedulingError (String × Bool) :=
  match daysOfWeek.findIdx? (fun s => s == start_day) with
  | none => Except.error (SchedulingError.configurationError start_day)
  | some i =>
      let day_index := (i + day) % 7
      Except.ok (daysOfWeek.getD day_index "", decide (5 ≤ day_index))

/-- The weekday name of a day, `none` when the start day is invalid; used by
the embedded `assign_consecutive_shifts`, which calls `what_day(day, start_day)[0]`. -/
def dayNameOf (day : Nat) (start_day : String) : Option String :=
  (what_day day start_day).toOption.map Prod.fst

/-- Sum of a list of CP-SAT booleans, as in `sum(shifts[...] for ...)`. -/
def boolSum (l : List Bool) : Nat :=
  (l.map fun b => if b then 1 else 0).sum

theorem boolSum_nil : boolSum [] = 0 := rfl

theorem boolSum_cons (b : Bool) (l : List Bool) :
    boolSum (b :: l) = (if b then 1 else 0) + boolSum l := by
  simp [boolSum]

theorem boolSum_map_eq_length_filter {α : Type} (l : List α) (p : α → Bool) :
    boolSum (l.map p) = (l.filter p).length := by
  induction l with
  | nil => rfl
  | cons a t ih =>
      by_cases h : p a = true
      · simp [boolSum_cons, h, ih, List.filter_cons, Nat.add_comm]
      · simp at h
        simp [boolSum_cons, h, ih, List.filter_cons]

theorem boolSum_eq_zero {l : List Bool} :
    boolSum l = 0 ↔ ∀ b ∈ l, b = false := by
  induction l with
  | nil => simp [boolSum_nil]
  | cons a t ih =>
      cases a <;> simp [boolSum_cons, ih]

/-! ## Decision variable model (`scheduler.py`, `NurseSchedulingModel.__post_init__`)

Nurse identifiers are embedded as `Nat`, shift indices as `Nat`; `num_days` is
an `Int` so that a non-positive horizon can be passed (Python's
`range(num_days)` is then empty, embedded via `Int.toNat`). -/

/-- `range(num_days)` of `__post_init__` (`self.all_days`). -/
def allDaysOf (num_days : Int) : List Nat :=
  List.range num_days.toNat

/-- The keys of the `self.shifts` dict built in `__post_init__`, in the
comprehension's iteration order. -/
def schedShiftKeys (nurses : List Nat) (daily_shifts : List Nat) (num_days : Int) :
    List (Nat × Nat × Nat) :=
  nurses.flatMap fun nurse =>
    (allDaysOf num_days).flatMap fun day =>
      daily_shifts.map fun shift => (nurse, day, shift)

/-- The keys of the `self.rest_days` dict built in `__post_init__`. -/
def schedRestKeys (nurses : List Nat) (num_days : Int) : List (Nat × Nat) :=
  nurses.flatMap fun nurse =>
    (allDaysOf num_days).map fun day => (nurse, day)

/-- The variable universe created by `__post_init__`. -/
structure SchedModelVars where
  shiftKeys : List (Nat × Nat × Nat)
  restKeys : List (Nat × Nat)
  deriving DecidableEq

/-- Embedding of `NurseSchedulingModel.__post_init__` (src/scheduler.py lines
16–35).  The Python body performs no input validation and raises nothing, so
the embedding is total and always returns `Except.ok`. -/
def mkNurseSchedulingModel (nurses : List Nat) (daily_shifts : List Nat)
    (num_days : Int) : Except SchedulingError SchedModelVars :=
  Except.ok
    { shiftKeys := schedShiftKeys nurses daily_shifts num_days
      restKeys := schedRestKeys nurses num_days }

/-! ## Constraint library (`constraints.py`) -/

/-- The groups of variables over which `single_nurse_per_shift`
(src/Add-Apply Constraints Basis/constraints.py lines 27–38) issues
`model.AddExactlyOne(...)`: one group per `(day, shift)`, listing
`shifts[(nurse, day, shift)]` for every nurse. -/
def singleNursePerShiftGroups (nurses days daily_shifts : List Nat) :
    List (List (Nat × Nat × Nat)) :=
  days.flatMap fun day =>
    daily_shifts.map fun shift =>
      nurses.map fun nurse => (nurse, day, shift)

/-- An assignment satisfies an `AddExactlyOne` constraint over a group of
shift variables when exactly one of them is 1. -/
def exactlyOneSat (x : Nat → Nat → Nat → Bool) (g : List (Nat × Nat × Nat)) : Prop :=
  boolSum (g.map fun t => x t.1 t.2.1 t.2.2) = 1

/-- Satisfaction of all constraints added by `single_nurse_per_shift`. -/
def singleNursePerShiftSat (x : Nat → Nat → Nat → Bool)
    (nurses days daily_shifts : List Nat) : Prop :=
  ∀ g ∈ singleNursePerShiftGroups nurses days daily_shifts, exactlyOneSat x g

/-- The `min_shifts_per_nurse` bound computed by `distribute_shifts_evenly`
(src/Add-Apply Constraints Basis/constraints.py lines 56–79). -/
def min_shifts_per_nurse (num_shifts num_days num_nurses : Nat) : Nat :=
  (num_shifts * num_days) / num_nurses

/-- The `max_shifts_per_nurse` bound computed by `distribute_shifts_evenly`. -/
def max_shifts_per_nurse (num_shifts num_days num_nurses tolerance : Nat) : Nat :=
  if (num_shifts * num_days) % num_nurses = 0 then
    min_shifts_per_nurse num_shifts num_days num_nurses
  else
    min_shifts_per_nurse num_shifts num_days num_nurses + tolerance

/-- `sum(shifts[(nurse, day, shift)] for day in days for shift in daily_shifts)`:
a nurse's total over a day subset and shift subset. -/
def nurseTotal (x : Nat → Nat → Nat → Bool) (nurse : Nat)
    (days daily_shifts : List Nat) : Nat :=
  boolSum (days.flatMap fun day => daily_shifts.map fun shift => x nurse day shift)

/-- Satisfaction of the constraints added by `distribute_shifts_evenly`:
each nurse's total over `days × daily_shifts` lies between the two computed
bounds. -/
def distributeShiftsEvenlySat (x : Nat → Nat → Nat → Bool)
    (nurses days daily_shifts : List Nat) (num_nurses tolerance : Nat) : Prop :=
  ∀ nurse ∈ nurses,
    min_shifts_per_nurse daily_shifts.length days.length num_nurses ≤
        nurseTotal x nurse days daily_shifts ∧
      nurseTotal x nurse days daily_shifts ≤
        max_shifts_per_nurse daily_shifts.length days.length num_nurses tolerance

/-- Satisfaction of the constraints added by `limit_shifts_after_shifts`
(src/Add-Apply Constraints Basis/constraints.py lines 112–135).  For every
`(day, nurse)` the rule creates a fresh boolean `worked_shifts_first`
(embedded as `ind nurse day`), constrains it by
`AddMaxEquality(worked_shifts_first, [shifts[(nurse, day, s)] for s in first_shifts])`
(boolean OR), and adds
`sum(shifts[(nurse, day+off, s)] for off in range(min(num_consecutive, len(days)-day)) for s in limited_shifts) == allowed_num_shifts`
guarded by `OnlyEnforceIf(worked_shifts_first)`. -/
def limitShiftsAfterShiftsSat (x : Nat → Nat → Nat → Bool)
    (ind : Nat → Nat → Bool) (nurses days : List Nat)
    (first_shifts limited_shifts : List Nat)
    (num_consecutive allowed_num_shifts : Nat) : Prop :=
  ∀ day ∈ days, ∀ nurse ∈ nurses,
    ind nurse day = (first_shifts.any fun shift => x nurse day shift) ∧
    (ind nurse day = true →
      boolSum ((List.range (min num_consecutive (days.length - day))).flatMap
          fun off => limited_shifts.map fun shift => x nurse (day + off) shift) =
        allowed_num_shifts)

/-- Satisfaction of the constraints added by `assign_consecutive_shifts`
(src/Add-Apply Constraints Basis/constraints.py lines 137–173).  For every
day whose weekday name (via `what_day(day, start_day)[0]`) equals
`start_shift_day` and every nurse, the rule creates a fresh boolean
`worked_consecutive_shifts` (embedded as `ind nurse day`), constrains it
equal to `shifts[nurse, day, shift_index]`; for each `day_offset` in
`range(1, num_consecutive)` with `day + day_offset < num_days` it equates
`shifts[nurse, day+day_offset, shift_index]` with
`shifts[nurse, day, shift_index]`; and for each `rest_offset` in `range(2)`
with `day + num_consecutive + rest_offset < num_days` it adds
`sum(shifts[nurse, rest_day, s] for s in daily_shifts) == 0` guarded by
`OnlyEnforceIf(worked_consecutive_shifts)` together with the unconditional
equation `rest_days[nurse, rest_day] == worked_consecutive_shifts`. -/
def assignConsecutiveShiftsSat (x : Nat → Nat → Nat → Bool)
    (r : Nat → Nat → Bool) (ind : Nat → Nat → Bool)
    (nurses days daily_shifts : List Nat) (start_day : String)
    (num_days : Nat) (start_shift_day : String)
    (shift_index num_consecutive : Nat) : Prop :=
  ∀ day ∈ days, ∀ nurse ∈ nurses,
    dayNameOf day start_day = some start_shift_day →
      ind nurse day = x nurse day shift_index ∧
      (∀ day_offset ∈ List.range' 1 (num_consecutive - 1),
        day + day_offset < num_days →
          x nurse (day + day_offset) shift_index = x nurse day shift_index) ∧
      (∀ rest_offset ∈ List.range 2,
        day + num_consecutive + rest_offset < num_days →
          (ind nurse day = true →
            boolSum (daily_shifts.map fun shift =>
              x nurse (day + num_consecutive + rest_offset) shift) = 0) ∧
          r nurse (day + num_consecutive + rest_offset) = ind nurse day)

/-- Every day index at which `assign_consecutive_shifts` looks up a
`shifts[...]` or `rest_days[...]` variable, transcribed from the loops of
src/Add-Apply Constraints Basis/constraints.py lines 147–171 in evaluation
order: the indicator equation reads `shifts[nurse, day, shift_index]`; the
propagation loop reads `shifts[nurse, day+day_offset, shift_index]` and
`shifts[nurse, day, shift_index]` only when `day + day_offset < num_days`;
the rest loop reads `shifts[nurse, rest_day, s]` for each `s` in
`daily_shifts` and `rest_days[nurse, rest_day]` only when
`rest_day < num_days`. -/
def assignConsecutiveDayRefs (nurses days daily_shifts : List Nat)
    (start_day : String) (num_days : Nat) (start_shift_day : String)
    (num_consecutive : Nat) : List Nat :=
  days.flatMap fun day =>
    if dayNameOf day start_day = some start_shift_day then
      nurses.flatMap fun _nurse =>
        [day] ++
        ((List.range' 1 (num_consecutive - 1)).flatMap fun day_offset =>
          if day + day_offset < num_days then [day + day_offset, day] else []) ++
        ((List.range 2).flatMap fun rest_offset =>
          if day + num_consecutive + rest_offset < num_days then
            (day + num_consecutive + rest_offset) ::
              daily_shifts.map (fun _shift => day + num_consecutive + rest_offset)
          else [])
    else []

/-- The day indices whose rest-day variable `assign_consecutive_shifts`
constrains (the in-horizon days `day + num_consecutive + rest_offset`,
`rest_offset ∈ {0, 1}`, following a block start `day`). -/
def restCoupledDays (num_days : Nat) (start_day start_shift_day : String)
    (num_consecutive : Nat) : List Nat :=
  (List.range num_days).flatMap fun day =>
    if dayNameOf day start_day = some start_shift_day then
      (List.range 2).filterMap fun rest_offset =>
        if day + num_consecutive + rest_offset < num_days then
          some (day + num_consecutive + rest_offset)
        else none
    else []

/-! ## Solve and extraction (`scheduler.py`, `NurseSchedulingModel.solve`) -/

/-- Terminal CP-SAT statuses distinguished by `solve`. -/
inductive CpStatus where
  | optimal
  | feasible
  | infeasible
  | unknown
  deriving DecidableEq

/-- The data extracted by a successful `solve`: the rows of `self.solution`
(the `(nurse, day, shift)` triples whose variable resolved to 1) and of
`self.assigned_rests` (the `(nurse, day)` pairs whose rest variable resolved
to 1). -/
structure SolveResult where
  solution : List (Nat × Nat × Nat)
  assigned_rests : List (Nat × Nat)
  deriving DecidableEq

/-- Embedding of `NurseSchedulingModel.solve` (src/scheduler.py lines
116–148).  The Python code extracts output only in the
`if status == cp_model.OPTIMAL` branch; every other status (FEASIBLE,
INFEASIBLE, UNKNOWN) falls to the `else` branch, which prints
`'ERROR: no solution'` and calls `exit()`, producing no output — embedded
as `none`. -/
def nurseSolve (status : CpStatus)
    (shiftKeys : List (Nat × Nat × Nat)) (restKeys : List (Nat × Nat))
    (xval : Nat → Nat → Nat → Bool) (rval : Nat → Nat → Bool) :
    Option SolveResult :=
  match status with
  | CpStatus.optimal =>
      some { solution := shiftKeys.filter fun t => xval t.1 t.2.1 t.2.2
             assigned_rests := restKeys.filter fun p => rval p.1 p.2 }
  | _ => none

/-! ## Constraint registry (`Add-Apply Constraints Basis/scheduler.py`)

`self.applied_constraints` is a Python dict keyed by the description string;
it is embedded as an association list in insertion order with the dict's
update semantics: assigning to an existing key replaces the stored value in
place (keeping the key's original position), assigning a new key appends.
The stored value `(constraint_func, params)` is embedded abstractly as a
model transformer `β → β`, since `apply_constraints` only ever calls it on
the shared model. -/

/-- Embedding of `NurseSchedulingModel.add_constraints`
(src/Add-Apply Constraints Basis/scheduler.py lines 39–40):
`self.applied_constraints[description] = (constraint_func, params)`. -/
def registerConstraint {β : Type} (reg : List (String × β))
    (description : String) (entry : β) : List (String × β) :=
  if reg.any fun e => e.1 == description then
    reg.map fun e => if e.1 == description then (description, entry) else e
  else
    reg ++ [(description, entry)]

/-- Embedding of `NurseSchedulingModel.apply_constraints`
(src/Add-Apply Constraints Basis/scheduler.py lines 42–46): iterate the
registry's values in order, calling each stored rule on the shared model. -/
def applyConstraints {β : Type} (reg : List (String × (β → β))) (m : β) : β :=
  reg.foldl (fun acc e => e.2 acc) m

/-- Dict lookup on the embedded registry (first — and only — entry with the
given key). -/
def lookupConstraint {β : Type} (reg : List (String × β)) (description : String) :
    Option β :=
  (reg.find? fun e => e.1 == description).map Prod.snd

/-- Point update of a rest-day assignment at a single `(nurse, day)` pair. -/
def updRest (r : Nat → Nat → Bool) (n0 d0 : Nat) (b : Bool) : Nat → Nat → Bool :=
  fun nurse day => if nurse = n0 ∧ day = d0 then b else r nurse day

/-! ## Helper lemmas -/

instance (x : Nat → Nat → Nat → Bool) (nurses days daily_shifts : List Nat) :
    Decidable (singleNursePerShiftSat x nurses days daily_shifts) := by
  unfold singleNursePerShiftSat exactlyOneSat
  infer_instance

instance (x : Nat → Nat → Nat → Bool) (nurses days daily_shifts : List Nat)
    (num_nurses tolerance : Nat) :
    Decidable (distributeShiftsEvenlySat x nurses days daily_shifts num_nurses tolerance) := by
  unfold distributeShiftsEvenlySat
  infer_instance

instance (x : Nat → Nat → Nat → Bool) (ind : Nat → Nat → Bool)
    (nurses days first_shifts limited_shifts : List Nat)
    (num_consecutive allowed_num_shifts : Nat) :
    Decidable (limitShiftsAfterShiftsSat x ind nurses days first_shifts limited_shifts
      num_consecutive allowed_num_shifts) := by
  unfold limitShiftsAfterShiftsSat
  infer_instance

instance (x : Nat → Nat → Nat → Bool) (r : Nat → Nat → Bool) (ind : Nat → Nat → Bool)
    (nurses days daily_shifts : List Nat) (start_day : String) (num_days : Nat)
    (start_shift_day : String) (shift_index num_consecutive : Nat) :
    Decidable (assignConsecutiveShiftsSat x r ind nurses days daily_shifts start_day
      num_days start_shift_day shift_index num_consecutive) := by
  unfold assignConsecutiveShiftsSat
  infer_instance

theorem mem_if_nil {α : Type} {c : Prop} [Decidable c] {l : List α} {a : α} :
    (a ∈ if c then l else []) ↔ c ∧ a ∈ l := by
  by_cases h : c <;> simp [h]

theorem findIdx?_eq_none_of_not_mem {l : List String} {s : String}
    (h : s ∉ l) : l.findIdx? (fun t => t == s) = none := by
  rw [List.findIdx?_eq_none_iff]
  intro x hx
  by_contra hb
  rw [Bool.not_eq_false, beq_iff_eq] at hb
  exact h (hb ▸ hx)

/-! ## Claim theorems -/

/-- C8: for every day index and every starting weekday among the seven
canonical names, `what_day` returns the weekday name at position
`(index_of(start) + day) mod 7` of the canonical Monday-first ordering,
together with a weekend flag that is true exactly when that position is one
of the last two (Saturday, position 5, or Sunday, position 6); it is a total
function on such inputs and fails only when the starting weekday name is not
among the seven canonical names. -/
theorem what_day_spec (day : Nat) (start_day : String) :
    (start_day ∈ daysOfWeek →
      ∃ i, i < 7 ∧ daysOfWeek[i]? = some start_day ∧
        (∀ j, j < i → daysOfWeek[j]? ≠ some start_day) ∧
        what_day day start_day =
          Except.ok (daysOfWeek.getD ((i + day) % 7) "", decide (5 ≤ (i + day) % 7)) ∧
        (decide (5 ≤ (i + day) % 7) = true ↔
          (i + day) % 7 = 5 ∨ (i + day) % 7 = 6)) ∧
    (start_day ∉ daysOfWeek →
      what_day day start_day =
        Except.error (SchedulingError.configurationError start_day)) := by
  constructor
  · intro hmem
    fin_cases hmem
    · exact ⟨0, by norm_num, by decide, by decide, rfl, by rw [decide_eq_true_iff]; omega⟩
    · exact ⟨1, by norm_num, by decide, by decide, rfl, by rw [decide_eq_true_iff]; omega⟩
    · exact ⟨2, by norm_num, by decide, by decide, rfl, by rw [decide_eq_true_iff]; omega⟩
    · exact ⟨3, by norm_num, by decide, by decide, rfl, by rw [decide_eq_true_iff]; omega⟩
    · exact ⟨4, by norm_num, by decide, by decide, rfl, by rw [decide_eq_true_iff]; omega⟩
    · exact ⟨5, by norm_num, by decide, by decide, rfl, by rw [decide_eq_true_iff]; omega⟩
    · exact ⟨6, by norm_num, by decide, by decide, rfl, by rw [decide_eq_true_iff]; omega⟩
  · intro hmem
    unfold what_day
    rw [findIdx?_eq_none_of_not_mem hmem]

/-- C8 witness: the claim theorem applied at `day = 5`, `start_day = "Monday"`
(day 5 from a Monday start is Saturday, a weekend day). -/
theorem what_day_spec_witness :
    ∃ i, i < 7 ∧ daysOfWeek[i]? = some "Monday" ∧
      (∀ j, j < i → daysOfWeek[j]? ≠ some "Monday") ∧
      what_day 5 "Monday" =
        Except.ok (daysOfWeek.getD ((i + 5) % 7) "", decide (5 ≤ (i + 5) % 7)) ∧
      (decide (5 ≤ (i + 5) % 7) = true ↔ (i + 5) % 7 = 5 ∨ (i + 5) % 7 = 6) :=
  (what_day_spec 5 "Monday").1 (by decide)

/-- C1: `single_nurse_per_shift` adds, for every day in the horizon and every
shift type, an exactly-one constraint over all nurses' shift variables for
that `(day, shift)` pair; consequently, in every assignment satisfying the
generated constraints, exactly one nurse's variable `x[nurse, day, shift]`
equals 1 for each `(day, shift)` pair. -/
theorem singleNursePerShift_coverage (x : Nat → Nat → Nat → Bool)
    (nurses days daily_shifts : List Nat)
    (hsat : singleNursePerShiftSat x nurses days daily_shifts) :
    ∀ day ∈ days, ∀ shift ∈ daily_shifts,
      (nurses.map fun nurse => (nurse, day, shift)) ∈
          singleNursePerShiftGroups nurses days daily_shifts ∧
      (nurses.filter fun nurse => x nurse day shift).length = 1 := by
  intro day hday shift hshift
  have hg : (nurses.map fun nurse => (nurse, day, shift)) ∈
      singleNursePerShiftGroups nurses days daily_shifts := by
    simp only [singleNursePerShiftGroups, List.mem_flatMap, List.mem_map]
    exact ⟨day, hday, shift, hshift, rfl⟩
  refine ⟨hg, ?_⟩
  have h1 := hsat _ hg
  unfold exactlyOneSat at h1
  rw [List.map_map] at h1
  rw [← boolSum_map_eq_length_filter nurses (fun nurse => x nurse day shift)]
  exact h1

/-- C1 witness: the claim theorem applied to a two-nurse, one-day, one-shift
model in which only nurse 0 works. -/
theorem singleNursePerShift_coverage_witness :
    ([0, 1].map fun nurse => (nurse, 0, 0)) ∈
        singleNursePerShiftGroups [0, 1] [0] [0] ∧
    ([0, 1].filter fun nurse => nurse == 0).length = 1 :=
  singleNursePerShift_coverage (fun nurse _ _ => nurse == 0) [0, 1] [0] [0]
    (by decide) 0 (by decide) 0 (by decide)

/-- C5: `distribute_shifts_evenly` bounds each nurse's total over the given
day subset and shift subset within `[min, max]`, where
`min = (|shifts| * |days|) / num_nurses` (floor division) and `max = min`
when `|shifts| * |days|` is exactly divisible by `num_nurses`, else
`min + tolerance`; for 10 days, 3 nurses, 1 shift and tolerance 1 the
computed bounds are `min = 3` and `max = 4`. -/
theorem distributeShiftsEvenly_bounds (x : Nat → Nat → Nat → Bool)
    (nurses days daily_shifts : List Nat) (num_nurses tolerance : Nat)
    (_hpos : 0 < num_nurses)
    (hsat : distributeShiftsEvenlySat x nurses days daily_shifts num_nurses tolerance) :
    (∀ nurse ∈ nurses,
      (daily_shifts.length * days.length) / num_nurses ≤
          nurseTotal x nurse days daily_shifts ∧
        nurseTotal x nurse days daily_shifts ≤
          (if (daily_shifts.length * days.length) % num_nurses = 0 then
            (daily_shifts.length * days.length) / num_nurses
          else
            (daily_shifts.length * days.length) / num_nurses + tolerance)) ∧
    min_shifts_per_nurse 1 10 3 = 3 ∧ max_shifts_per_nurse 1 10 3 1 = 4 := by
  refine ⟨?_, by decide, by decide⟩
  intro nurse hn
  have h := hsat nurse hn
  unfold min_shifts_per_nurse max_shifts_per_nurse at h
  by_cases hdiv : (daily_shifts.length * days.length) % num_nurses = 0
  · rw [if_pos hdiv] at h ⊢
    exact h
  · rw [if_neg hdiv] at h ⊢
    exact h

/-- C5 witness: the claim theorem applied to the assignment in which nurse
`n ∈ {0, 1, 2}` works shift 0 on days `{n, n+3, n+6}` and nurse 0 also on
day 9, over a 10-day horizon with a single shift type. -/
theorem distributeShiftsEvenly_bounds_witness :
    (∀ nurse ∈ [0, 1, 2],
      (([0] : List Nat).length * (List.range 10).length) / 3 ≤
          nurseTotal (fun nurse day _ => day % 3 == nurse) nurse (List.range 10) [0] ∧
        nurseTotal (fun nurse day _ => day % 3 == nurse) nurse (List.range 10) [0] ≤
          (if (([0] : List Nat).length * (List.range 10).length) % 3 = 0 then
            (([0] : List Nat).length * (List.range 10).length) / 3
          else
            (([0] : List Nat).length * (List.range 10).length) / 3 + 1)) ∧
    min_shifts_per_nurse 1 10 3 = 3 ∧ max_shifts_per_nurse 1 10 3 1 = 4 :=
  distributeShiftsEvenly_bounds (fun nurse day _ => day % 3 == nurse)
    [0, 1, 2] (List.range 10) [0] 3 1 (by decide) (by decide)

/-- C4 counterexample: on solver status FEASIBLE the code does not extract a
Solution — `solve` only extracts in the `status == cp_model.OPTIMAL` branch
and otherwise prints an error and calls `exit()`, so a FEASIBLE solve
produces no output, contradicting the claim that OPTIMAL and FEASIBLE are
treated alike. -/
theorem nurseSolve_feasible_no_output :
    nurseSolve CpStatus.feasible [(0, 0, 0)] [(0, 0)]
      (fun _ _ _ => true) (fun _ _ => true) = none := rfl

/-- C4 (amended): `solve` produces output exactly for status OPTIMAL, in
which case the Solution rows are the `(nurse, day, shift)` keys whose
variable resolved to 1 and the RestDay rows the `(nurse, day)` keys whose
rest variable resolved to 1; for FEASIBLE, INFEASIBLE and UNKNOWN alike it
aborts with an error and produces no Solution or RestDay output (no partial
output is ever exposed). -/
theorem nurseSolve_only_optimal_extracts (status : CpStatus)
    (shiftKeys : List (Nat × Nat × Nat)) (restKeys : List (Nat × Nat))
    (xval : Nat → Nat → Nat → Bool) (rval : Nat → Nat → Bool) :
    ((nurseSolve status shiftKeys restKeys xval rval).isSome ↔
      status = CpStatus.optimal) ∧
    (status = CpStatus.optimal →
      nurseSolve status shiftKeys restKeys xval rval =
        some ⟨shiftKeys.filter fun t => xval t.1 t.2.1 t.2.2,
              restKeys.filter fun p => rval p.1 p.2⟩) := by
  cases status <;> simp [nurseSolve]

/-- C4 witness: the amended theorem applied at status OPTIMAL with a
one-variable model. -/
theorem nurseSolve_only_optimal_extracts_witness :
    nurseSolve CpStatus.optimal [(0, 0, 0)] [(0, 0)]
      (fun _ _ _ => true) (fun _ _ => false) = some ⟨[(0, 0, 0)], []⟩ := by
  have h := (nurseSolve_only_optimal_extracts CpStatus.optimal [(0, 0, 0)] [(0, 0)]
    (fun _ _ _ => true) (fun _ _ => false)).2 rfl
  rw [h]
  decide

/-- C2: in every assignment satisfying the constraints added by
`assign_consecutive_shifts`, for every day `d` whose weekday name (derived
from the configured start day) equals `start_shift_day` and every nurse `n`:
the block indicator equals `x[n, d, shift_index]`; `x[n, d+k, shift_index]`
equals `x[n, d, shift_index]` for every `k` in `1 .. num_consecutive - 1`
with `d + k` inside the horizon; and, when the indicator is true, each of the
two in-horizon days `d + num_consecutive` and `d + num_consecutive + 1` has
zero shifts of any type and its rest-day variable equals the indicator. -/
theorem assignConsecutiveShifts_block_rest (x : Nat → Nat → Nat → Bool)
    (r : Nat → Nat → Bool) (ind : Nat → Nat → Bool)
    (nurses days daily_shifts : List Nat) (start_day : String) (num_days : Nat)
    (start_shift_day : String) (shift_index num_consecutive : Nat)
    (hsat : assignConsecutiveShiftsSat x r ind nurses days daily_shifts
      start_day num_days start_shift_day shift_index num_consecutive) :
    ∀ day ∈ days, ∀ nurse ∈ nurses,
      dayNameOf day start_day = some start_shift_day →
        ind nurse day = x nurse day shift_index ∧
        (∀ k, 1 ≤ k → k ≤ num_consecutive - 1 → day + k < num_days →
          x nurse (day + k) shift_index = x nurse day shift_index) ∧
        (ind nurse day = true →
          ∀ j, j < 2 → day + num_consecutive + j < num_days →
            (∀ shift ∈ daily_shifts, x nurse (day + num_consecutive + j) shift = false) ∧
            r nurse (day + num_consecutive + j) = true) := by
  intro day hday nurse hn hname
  obtain ⟨h1, h2, h3⟩ := hsat day hday nurse hn hname
  refine ⟨h1, ?_, ?_⟩
  · intro k hk1 hk2 hklt
    exact h2 k (List.mem_range'_1.2 ⟨hk1, by omega⟩) hklt
  · intro hind j hj hjlt
    obtain ⟨hz, hr⟩ := h3 j (List.mem_range.2 hj) hjlt
    refine ⟨?_, by rw [hr, hind]⟩
    intro shift hshift
    have := (boolSum_eq_zero.1 (hz hind)) (x nurse (day + num_consecutive + j) shift)
      (List.mem_map.2 ⟨shift, hshift, rfl⟩)
    exact this

/-- C2 witness: the claim theorem applied to the all-false assignment over a
7-day horizon starting Monday with blocks of 3 night shifts (`shift_index =
2`) beginning each Monday, instantiated at the block start day 0 and
nurse 0. -/
theorem assignConsecutiveShifts_block_rest_witness :
    (fun (_ : Nat) (_ : Nat) => false) 0 0 =
        (fun (_ : Nat) (_ : Nat) (_ : Nat) => false) 0 0 2 ∧
    (∀ k, 1 ≤ k → k ≤ 3 - 1 → 0 + k < 7 →
      (fun (_ : Nat) (_ : Nat) (_ : Nat) => false) 0 (0 + k) 2 =
        (fun (_ : Nat) (_ : Nat) (_ : Nat) => false) 0 0 2) ∧
    ((fun (_ : Nat) (_ : Nat) => false) 0 0 = true →
      ∀ j, j < 2 → 0 + 3 + j < 7 →
        (∀ shift ∈ [0, 1, 2],
          (fun (_ : Nat) (_ : Nat) (_ : Nat) => false) 0 (0 + 3 + j) shift = false) ∧
        (fun (_ : Nat) (_ : Nat) => false) 0 (0 + 3 + j) = true) :=
  assignConsecutiveShifts_block_rest (fun _ _ _ => false) (fun _ _ => false)
    (fun _ _ => false) [0] (List.range 7) [0, 1, 2] "Monday" 7 "Monday" 2 3
    (by decide) 0 (by decide) 0 (by decide) (by decide)

/-- C3: `assign_consecutive_shifts` never references a day index at or beyond
the horizon: for every configuration, every `shifts[...]` or `rest_days[...]`
lookup that the rule performs uses a day index `< num_days` — including when
a block starts within `num_consecutive - 1` days of the horizon end; days
beyond the horizon are not referenced and hence left unconstrained. -/
theorem assignConsecutive_refs_in_horizon (nurses daily_shifts : List Nat)
    (start_day : String) (num_days : Nat) (start_shift_day : String)
    (num_consecutive : Nat) :
    ∀ d ∈ assignConsecutiveDayRefs nurses (List.range num_days) daily_shifts
        start_day num_days start_shift_day num_consecutive,
      d < num_days := by
  intro d hd
  simp only [assignConsecutiveDayRefs, List.mem_flatMap, mem_if_nil,
    List.mem_append, List.mem_cons, List.mem_map, List.mem_range,
    List.mem_range'_1, List.mem_singleton, List.not_mem_nil] at hd
  obtain ⟨day, hday, -, nurse, -, hmem⟩ := hd
  rcases hmem with h1 | h2
  · rcases h1 with h1a | h1b
    · rcases h1a with h | h
      · omega
      · exact h.elim
    · obtain ⟨k, ⟨hk1, hk2⟩, hklt, hcase⟩ := h1b
      rcases hcase with h | h | h
      · omega
      · omega
      · exact h.elim
  · obtain ⟨j, hj, hjlt, hcase⟩ := h2
    rcases hcase with h | ⟨s, hs, h⟩
    · omega
    · omega

/-- C3 witness: the claim theorem applied at a 7-day horizon with a Monday
block of length 3 (the first referenced day index, 0, is in the horizon). -/
theorem assignConsecutive_refs_in_horizon_witness :
    (0 : Nat) < 7 :=
  assignConsecutive_refs_in_horizon [0] [0, 1, 2] "Monday" 7 "Monday" 3 0
    (by decide)

/-- C6: an assignment satisfies the constraints added by
`limit_shifts_after_shifts` exactly when, for every nurse and day, the
worked-first indicator equals the logical OR of that nurse's variables over
the `first_shifts` subset on that day, and — only when the indicator is
true — the sum of `limited_shifts` variables over the following
`min(num_consecutive, horizon_end - day)` days equals exactly
`allowed_num_shifts`; nothing else is constrained by this rule (the reverse
implication: any assignment meeting just these two conditions satisfies the
rule). -/
theorem limitShiftsAfterShifts_reified (x : Nat → Nat → Nat → Bool)
    (ind : Nat → Nat → Bool) (nurses days : List Nat)
    (first_shifts limited_shifts : List Nat)
    (num_consecutive allowed_num_shifts : Nat) :
    limitShiftsAfterShiftsSat x ind nurses days first_shifts limited_shifts
        num_consecutive allowed_num_shifts ↔
      ∀ day ∈ days, ∀ nurse ∈ nurses,
        (ind nurse day = true ↔ ∃ shift ∈ first_shifts, x nurse day shift = true) ∧
        (ind nurse day = true →
          boolSum ((List.range (min num_consecutive (days.length - day))).flatMap
              fun off => limited_shifts.map fun shift => x nurse (day + off) shift) =
            allowed_num_shifts) := by
  unfold limitShiftsAfterShiftsSat
  constructor <;> intro h day hday nurse hn <;> obtain ⟨h1, h2⟩ := h day hday nurse hn <;>
    refine ⟨?_, h2⟩
  · rw [h1, List.any_eq_true]
  · rw [Bool.eq_iff_iff, List.any_eq_true]
    exact h1

/-- C6 witness: the claim theorem applied (right to left) to the assignment
in which nurse 0 always works shift 1 and never shift 0, with
`first_shifts = [0]`, `limited_shifts = [1]`, `num_consecutive = 2`,
`allowed_num_shifts = 0`: every indicator is false, so the rule is satisfied
even though the limited sums are nonzero — the reified constraint imposes
nothing when the indicator is false. -/
theorem limitShiftsAfterShifts_reified_witness :
    limitShiftsAfterShiftsSat (fun _ _ shift => shift == 1) (fun _ _ => false)
      [0] (List.range 2) [0] [1] 2 0 :=
  (limitShiftsAfterShifts_reified (fun _ _ shift => shift == 1) (fun _ _ => false)
    [0] (List.range 2) [0] [1] 2 0).mpr (by decide)

/-- C7 counterexample: `__post_init__` performs no input validation — there is
no ConfigurationError anywhere in the code.  Constructing the model from an
empty roster, a zero or negative horizon, or an empty shift-type mapping
succeeds and simply yields the corresponding empty variable families,
contradicting the claim that construction fails on those inputs. -/
theorem mkNurseSchedulingModel_no_validation :
    mkNurseSchedulingModel [] [0] 5 = Except.ok ⟨[], []⟩ ∧
    mkNurseSchedulingModel [0] [0] 0 = Except.ok ⟨[], []⟩ ∧
    mkNurseSchedulingModel [0] [0] (-3) = Except.ok ⟨[], []⟩ ∧
    mkNurseSchedulingModel [0] [] 2 =
      Except.ok ⟨[], [(0, 0), (0, 1)]⟩ :=
  ⟨rfl, rfl, rfl, rfl⟩

/-- C7 (amended): construction never fails — for every roster, shift-type
mapping and horizon it returns a model with exactly
`|nurses| * max(num_days, 0) * |shifts|` shift variables and
`|nurses| * max(num_days, 0)` rest variables, each independently addressable
by its distinct `(nurse, day[, shift])` key (the key lists are duplicate-free
when the roster and shift mapping are); invalid static inputs (empty roster,
non-positive horizon, empty shift mapping) are not rejected but produce the
corresponding empty variable families. -/
theorem mkNurseSchedulingModel_counts (nurses daily_shifts : List Nat)
    (num_days : Int) (hn : nurses.Nodup) (hs : daily_shifts.Nodup) :
    ∃ m, mkNurseSchedulingModel nurses daily_shifts num_days = Except.ok m ∧
      m.shiftKeys.length = nurses.length * num_days.toNat * daily_shifts.length ∧
      m.restKeys.length = nurses.length * num_days.toNat ∧
      m.shiftKeys.Nodup ∧ m.restKeys.Nodup ∧
      (∀ nurse day shift, (nurse, day, shift) ∈ m.shiftKeys ↔
        nurse ∈ nurses ∧ day < num_days.toNat ∧ shift ∈ daily_shifts) ∧
      (∀ nurse day, (nurse, day) ∈ m.restKeys ↔
        nurse ∈ nurses ∧ day < num_days.toNat) := by
  have hshift : schedShiftKeys nurses daily_shifts num_days =
      nurses ×ˢ (allDaysOf num_days ×ˢ daily_shifts) := by
    simp [schedShiftKeys, SProd.sprod, List.product, List.map_flatMap,
      List.map_map, Function.comp_def]
  have hrest : schedRestKeys nurses num_days =
      nurses ×ˢ allDaysOf num_days := by
    simp [schedRestKeys, SProd.sprod, List.product]
  refine ⟨_, rfl, ?_, ?_, ?_, ?_, ?_, ?_⟩
  · show (schedShiftKeys nurses daily_shifts num_days).length = _
    unfold schedShiftKeys allDaysOf
    simp only [Function.comp_def, List.length_flatMap, List.length_map]
    simp only [List.map_const', List.sum_replicate, smul_eq_mul, List.length_range]
    ring
  · show (schedRestKeys nurses num_days).length = _
    unfold schedRestKeys allDaysOf
    simp only [Function.comp_def, List.length_flatMap, List.length_map]
    simp only [List.map_const', List.sum_replicate, smul_eq_mul, List.length_range]
  · show (schedShiftKeys nurses daily_shifts num_days).Nodup
    rw [hshift]
    exact hn.product ((List.nodup_range _).product hs)
  · show (schedRestKeys nurses num_days).Nodup
    rw [hrest]
    exact hn.product (List.nodup_range _)
  · intro nurse day shift
    show (nurse, day, shift) ∈ schedShiftKeys nurses daily_shifts num_days ↔ _
    rw [hshift, List.mem_product, List.mem_product]
    simp [allDaysOf]
  · intro nurse day
    show (nurse, day) ∈ schedRestKeys nurses num_days ↔ _
    rw [hrest, List.mem_product]
    simp [allDaysOf]

/-- C7 witness: the amended theorem applied to a two-nurse roster with three
shift types over a 56-day horizon. -/
theorem mkNurseSchedulingModel_counts_witness :
    ∃ m, mkNurseSchedulingModel [0, 1] [0, 1, 2] 56 = Except.ok m ∧
      m.shiftKeys.length = ([0, 1] : List Nat).length * (56 : Int).toNat *
        ([0, 1, 2] : List Nat).length ∧
      m.restKeys.length = ([0, 1] : List Nat).length * (56 : Int).toNat ∧
      m.shiftKeys.Nodup ∧ m.restKeys.Nodup ∧
      (∀ nurse day shift, (nurse, day, shift) ∈ m.shiftKeys ↔
        nurse ∈ [0, 1] ∧ day < (56 : Int).toNat ∧ shift ∈ [0, 1, 2]) ∧
      (∀ nurse day, (nurse, day) ∈ m.restKeys ↔
        nurse ∈ [0, 1] ∧ day < (56 : Int).toNat) :=
  mkNurseSchedulingModel_counts [0, 1] [0, 1, 2] 56 (by decide) (by decide)

theorem find?_replace {β : Type} (reg : List (String × β)) (d : String) (v : β)
    (h : d ∈ reg.map Prod.fst) :
    (reg.map fun e => if e.1 == d then (d, v) else e).find?
      (fun e => e.1 == d) = some (d, v) := by
  induction reg with
  | nil => simp at h
  | cons a t ih =>
      by_cases ha : a.1 = d
      · rw [List.map_cons, if_pos (by simp [ha])]
        exact List.find?_cons_of_pos _ (by simp)
      · rw [List.map_cons, if_neg (by simp [ha])]
        rw [List.find?_cons_of_neg _ (by simp [ha])]
        refine ih ?_
        rw [List.map_cons] at h
        rcases List.mem_cons.1 h with h1 | h1
        · exact absurd h1.symm ha
        · exact h1

theorem find?_no_key {β : Type} (reg : List (String × β)) (d : String)
    (h : d ∉ reg.map Prod.fst) :
    reg.find? (fun e => e.1 == d) = none := by
  rw [List.find?_eq_none]
  intro e he
  simp only [beq_iff_eq]
  intro hEq
  exact h (List.mem_map.2 ⟨e, he, hEq⟩)

theorem register_keys_of_mem {β : Type} (reg : List (String × β)) (d : String)
    (v : β) (h : d ∈ reg.map Prod.fst) :
    registerConstraint reg d v = reg.map fun e => if e.1 == d then (d, v) else e := by
  unfold registerConstraint
  rw [if_pos]
  rw [List.any_eq_true]
  obtain ⟨e, he, hEq⟩ := List.mem_map.1 h
  exact ⟨e, he, by simp [hEq]⟩

theorem register_keys_of_not_mem {β : Type} (reg : List (String × β)) (d : String)
    (v : β) (h : d ∉ reg.map Prod.fst) :
    registerConstraint reg d v = reg ++ [(d, v)] := by
  unfold registerConstraint
  rw [if_neg]
  intro hany
  obtain ⟨e, he, hEq⟩ := List.any_eq_true.1 hany
  exact h (List.mem_map.2 ⟨e, he, by simpa using hEq⟩)

theorem register_map_fst_of_mem {β : Type} (reg : List (String × β)) (d : String)
    (v : β) (h : d ∈ reg.map Prod.fst) :
    (registerConstraint reg d v).map Prod.fst = reg.map Prod.fst := by
  rw [register_keys_of_mem reg d v h, List.map_map]
  refine List.map_congr_left ?_
  intro e _
  by_cases hEq : e.1 = d
  · simp [Function.comp_def, hEq]
  · simp [Function.comp_def, hEq]

/-- C9: registering a rule stores its entry keyed by the description string —
looking the description up afterwards yields the new entry; re-registering an
already-used description overwrites in place (same length, same key list, no
merge), while a fresh description is appended, so a duplicate-free registry
stays duplicate-free with exactly one entry per description; and applying the
registered constraints folds every stored rule over the shared model exactly
once in registration order — in particular the rule registered last is
applied last, to the model produced by all earlier rules.  (Application is a
pure function of the registry and model, hence deterministic given identical
inputs and registration order.) -/
theorem registry_register_apply {β : Type} (reg : List (String × (β → β)))
    (description : String) (entry : β → β) (m : β)
    (hnd : (reg.map Prod.fst).Nodup) :
    lookupConstraint (registerConstraint reg description entry) description =
        some entry ∧
    ((registerConstraint reg description entry).map Prod.fst).Nodup ∧
    (description ∈ reg.map Prod.fst →
      (registerConstraint reg description entry).length = reg.length ∧
      (registerConstraint reg description entry).map Prod.fst =
        reg.map Prod.fst) ∧
    (description ∉ reg.map Prod.fst →
      registerConstraint reg description entry = reg ++ [(description, entry)]) ∧
    applyConstraints (reg ++ [(description, entry)]) m =
      entry (applyConstraints reg m) := by
  refine ⟨?_, ?_, ?_, register_keys_of_not_mem reg description entry, ?_⟩
  · by_cases h : description ∈ reg.map Prod.fst
    · rw [register_keys_of_mem reg description entry h]
      unfold lookupConstraint
      rw [find?_replace reg description entry h]
      rfl
    · rw [register_keys_of_not_mem reg description entry h]
      unfold lookupConstraint
      rw [List.find?_append, find?_no_key reg description h]
      simp
  · by_cases h : description ∈ reg.map Prod.fst
    · rw [register_map_fst_of_mem reg description entry h]
      exact hnd
    · rw [register_keys_of_not_mem reg description entry h, List.map_append]
      rw [List.nodup_append]
      exact ⟨hnd, by simp, by intro a ha hb; simp at hb; exact h (hb ▸ ha)⟩
  · intro h
    exact ⟨by rw [register_keys_of_mem reg description entry h, List.length_map],
      register_map_fst_of_mem reg description entry h⟩
  · unfold applyConstraints
    rw [List.foldl_append]
    rfl

/-- C9 witness: the claim theorem applied to a one-entry registry over
`β = Nat` with a fresh description, the stored rules being `n + 1` and
`n * 2`. -/
theorem registry_register_apply_witness :
    lookupConstraint (registerConstraint [("a", fun n => n + 1)] "b"
        (fun n => n * 2)) "b" = some (fun n => n * 2) ∧
    ((registerConstraint [("a", fun n => n + 1)] "b"
        (fun n => n * 2)).map Prod.fst).Nodup ∧
    ("b" ∈ ([("a", fun n => n + 1)] : List (String × (Nat → Nat))).map Prod.fst →
      (registerConstraint [("a", fun n => n + 1)] "b" (fun n => n * 2)).length =
        ([("a", fun n => n + 1)] : List (String × (Nat → Nat))).length ∧
      (registerConstraint [("a", fun n => n + 1)] "b"
          (fun n => n * 2)).map Prod.fst =
        ([("a", fun n => n + 1)] : List (String × (Nat → Nat))).map Prod.fst) ∧
    ("b" ∉ ([("a", fun n => n + 1)] : List (String × (Nat → Nat))).map Prod.fst →
      registerConstraint [("a", fun n => n + 1)] "b" (fun n => n * 2) =
        [("a", fun n => n + 1)] ++ [("b", fun n => n * 2)]) ∧
    applyConstraints ([("a", fun n => n + 1)] ++ [("b", fun n => n * 2)]) 5 =
      (fun n => n * 2) (applyConstraints [("a", fun n => n + 1)] 5) :=
  registry_register_apply [("a", fun n => n + 1)] "b" (fun n => n * 2) 5
    (by decide)

theorem mem_restCoupledDays_of (num_days nc day j : Nat) (sd ssd : String)
    (hday : day < num_days) (hname : dayNameOf day sd = some ssd)
    (hj : j < 2) (hlt : day + nc + j < num_days) :
    day + nc + j ∈ restCoupledDays num_days sd ssd nc := by
  unfold restCoupledDays
  rw [List.mem_flatMap]
  refine ⟨day, List.mem_range.2 hday, ?_⟩
  rw [if_pos hname, List.mem_filterMap]
  exact ⟨j, List.mem_range.2 hj, by rw [if_pos hlt]⟩

theorem assignConsecutiveSat_update_rest (x : Nat → Nat → Nat → Bool)
    (r : Nat → Nat → Bool) (ind : Nat → Nat → Bool) (nurses : List Nat)
    (daily_shifts : List Nat) (sd : String) (num_days : Nat) (ssd : String)
    (si nc n0 d0 : Nat) (b : Bool)
    (hsat : assignConsecutiveShiftsSat x r ind nurses (List.range num_days)
      daily_shifts sd num_days ssd si nc)
    (hd0 : d0 ∉ restCoupledDays num_days sd ssd nc) :
    assignConsecutiveShiftsSat x (updRest r n0 d0 b) ind nurses
      (List.range num_days) daily_shifts sd num_days ssd si nc := by
  intro day hday nurse hn hname
  obtain ⟨h1, h2, h3⟩ := hsat day hday nurse hn hname
  refine ⟨h1, h2, ?_⟩
  intro j hj hlt
  obtain ⟨hz, hr⟩ := h3 j hj hlt
  refine ⟨hz, ?_⟩
  have hne : day + nc + j ≠ d0 := by
    intro hEq
    exact hd0 (hEq ▸ mem_restCoupledDays_of num_days nc day j sd ssd
      (List.mem_range.1 hday) hname (List.mem_range.1 hj) hlt)
  unfold updRest
  rw [if_neg fun hc => hne hc.2]
  exact hr

/-- C10 (implicit): in the full Monday-start pipeline the rest-day dict is
passed only to the two `assign_consecutive_shifts` instantiations (Monday
blocks of 3 and Thursday blocks of 4 night shifts, `shift_index = 2`), so a
rest-day variable `r[n, d]` is constrained only when `d` is one of the two
in-horizon days immediately following a block start.  For every other day
`d0`, the rest-day variable is left entirely unconstrained: flipping
`r[n0, d0]` to any value preserves the satisfaction of both block rules and
of every rule that does not receive the rest-day dict (abstracted as an
arbitrary predicate `P` over the shift variables alone — every other rule in
`constraints.py` is such a predicate); and when it is flipped to 1 on an
in-horizon day of the constructed model, `solve`'s extraction reports
`(n0, d0)` in the RestDay output. -/
theorem restDay_unconstrained (P : (Nat → Nat → Nat → Bool) → Prop)
    (x : Nat → Nat → Nat → Bool) (r ind1 ind2 : Nat → Nat → Bool)
    (nurses : List Nat) (num_days n0 d0 : Nat) (b : Bool)
    (hP : P x)
    (h1 : assignConsecutiveShiftsSat x r ind1 nurses (List.range num_days)
      [0, 1, 2] "Monday" num_days "Monday" 2 3)
    (h2 : assignConsecutiveShiftsSat x r ind2 nurses (List.range num_days)
      [0, 1, 2] "Monday" num_days "Thursday" 2 4)
    (hd1 : d0 ∉ restCoupledDays num_days "Monday" "Monday" 3)
    (hd2 : d0 ∉ restCoupledDays num_days "Monday" "Thursday" 4) :
    P x ∧
    assignConsecutiveShiftsSat x (updRest r n0 d0 b) ind1 nurses
      (List.range num_days) [0, 1, 2] "Monday" num_days "Monday" 2 3 ∧
    assignConsecutiveShiftsSat x (updRest r n0 d0 b) ind2 nurses
      (List.range num_days) [0, 1, 2] "Monday" num_days "Thursday" 2 4 ∧
    (b = true → n0 ∈ nurses → d0 < num_days →
      ∀ res, nurseSolve CpStatus.optimal
          (schedShiftKeys nurses [0, 1, 2] (Int.ofNat num_days))
          (schedRestKeys nurses (Int.ofNat num_days))
          x (updRest r n0 d0 b) = some res →
        (n0, d0) ∈ res.assigned_rests) := by
  refine ⟨hP,
    assignConsecutiveSat_update_rest x r ind1 nurses [0, 1, 2] "Monday"
      num_days "Monday" 2 3 n0 d0 b h1 hd1,
    assignConsecutiveSat_update_rest x r ind2 nurses [0, 1, 2] "Monday"
      num_days "Thursday" 2 4 n0 d0 b h2 hd2, ?_⟩
  intro hb hn hd res hres
  have hres' : res = ⟨List.filter (fun t => x t.1 t.2.1 t.2.2)
      (schedShiftKeys nurses [0, 1, 2] (Int.ofNat num_days)),
    List.filter (fun p => updRest r n0 d0 b p.1 p.2)
      (schedRestKeys nurses (Int.ofNat num_days))⟩ := by
    have h0 : some res = (some ⟨List.filter (fun t => x t.1 t.2.1 t.2.2)
        (schedShiftKeys nurses [0, 1, 2] (Int.ofNat num_days)),
      List.filter (fun p => updRest r n0 d0 b p.1 p.2)
        (schedRestKeys nurses (Int.ofNat num_days))⟩ : Option SolveResult) := by
      rw [← hres]
      rfl
    exact Option.some_inj.1 h0
  subst hres'
  show (n0, d0) ∈ List.filter _ _
  rw [List.mem_filter]
  constructor
  · unfold schedRestKeys allDaysOf
    rw [List.mem_flatMap]
    refine ⟨n0, hn, List.mem_map.2 ⟨d0, ?_, rfl⟩⟩
    rw [List.mem_range]
    simpa using hd
  · show updRest r n0 d0 b n0 d0 = true
    unfold updRest
    rw [if_pos ⟨rfl, rfl⟩]
    exact hb

/-- C10 witness: the claim theorem applied to a one-nurse, 7-day Monday-start
model with the all-false assignment; day 2 (a Wednesday) follows no block, so
flipping its rest-day variable to 1 preserves all rest-related constraints
and the extraction reports `(0, 2)` as a rest day. -/
theorem restDay_unconstrained_witness :
    (fun (_ : Nat → Nat → Nat → Bool) => True) (fun _ _ _ => false) ∧
    assignConsecutiveShiftsSat (fun _ _ _ => false)
      (updRest (fun _ _ => false) 0 2 true) (fun _ _ => false) [0]
      (List.range 7) [0, 1, 2] "Monday" 7 "Monday" 2 3 ∧
    assignConsecutiveShiftsSat (fun _ _ _ => false)
      (updRest (fun _ _ => false) 0 2 true) (fun _ _ => false) [0]
      (List.range 7) [0, 1, 2] "Monday" 7 "Thursday" 2 4 ∧
    (true = true → 0 ∈ [0] → 2 < 7 →
      ∀ res, nurseSolve CpStatus.optimal
          (schedShiftKeys [0] [0, 1, 2] (Int.ofNat 7))
          (schedRestKeys [0] (Int.ofNat 7))
          (fun _ _ _ => false) (updRest (fun _ _ => false) 0 2 true) = some res →
        (0, 2) ∈ res.assigned_rests) :=
  restDay_unconstrained (fun _ => True) (fun _ _ _ => false) (fun _ _ => false)
    (fun _ _ => false) (fun _ _ => false) [0] 7 0 2 true trivial
    (by decide) (by decide) (by decide) (by decide)
